import Mathlib

/-
Verification of the logAnon sanitizer (src/main.py).

The embedding works over `List Char` as the model of Python strings, so that
all length and indexing facts are character-count facts, matching Python
string semantics.  The fragment of the Python `re` module that the program
and its rule files exercise is modelled by an explicit backtracking engine:
`Regex` is the pattern AST, `matchLens` lists the lengths of the prefixes a
pattern can match in backtracking preference order (greedy quantifiers,
left alternative first), and `pySub` is the scan-and-replace loop of
`re.Pattern.sub`, including the rule that a zero-width match emits its
replacement and then copies one character before the scan resumes.
-/

namespace LogAnon

/-- Pattern AST for the regex fragment the sanitizer uses: a literal
character, a character class given by its membership test, concatenation,
alternation, and the greedy Kleene star.  `\d+` is `plus (cls isDigit)` and
`[A-Z]\x7b2,\x7d` is `seq (cls upper) (plus (cls upper))`. -/
inductive Regex where
  | char (c : Char)
  | cls (p : Char → Bool)
  | seq (r₁ r₂ : Regex)
  | alt (r₁ r₂ : Regex)
  | star (r : Regex)

/-- Greedy repetition of a sub-match enumerator `f`: lengths obtainable by
iterating `f` zero or more times, longest-first along the first-choice
path, with the empty repetition last.  Iterations of width zero are
discarded, which is how the engine avoids looping on nullable bodies.
`fuel` bounds the number of iterations; every kept iteration consumes at
least one character, so `fuel = s.length` is always enough. -/
def starLens (f : List Char → List Nat) : Nat → List Char → List Nat
  | 0, _ => [0]
  | fuel + 1, s =>
      (((f s).filter (fun n => decide (0 < n))).flatMap
        (fun n => (starLens f fuel (s.drop n)).map (fun m => n + m))) ++ [0]

/-- Lengths of the prefixes of `s` that `r` can match, in backtracking
preference order: the head of this list is the match the Python engine
commits to at this position. -/
def matchLens : Regex → List Char → List Nat
  | .char _, [] => []
  | .char c, x :: _ => if x = c then [1] else []
  | .cls _, [] => []
  | .cls p, x :: _ => if p x then [1] else []
  | .seq r₁ r₂, s =>
      (matchLens r₁ s).flatMap (fun n => (matchLens r₂ (s.drop n)).map (fun m => n + m))
  | .alt r₁ r₂, s => matchLens r₁ s ++ matchLens r₂ s
  | .star r, s => starLens (matchLens r) s.length s

/-- The match the engine commits to at the start of `s`, if any. -/
def firstLen (r : Regex) (s : List Char) : Option Nat :=
  (matchLens r s).head?

/-- Does `r` match at the start of `s`? -/
def matchesAt (r : Regex) (s : List Char) : Bool :=
  !(matchLens r s).isEmpty

/-- Does `r` match anywhere in `s` (at any start position)? -/
def matchesIn (r : Regex) : List Char → Bool
  | [] => matchesAt r []
  | x :: rest => matchesAt r (x :: rest) || matchesIn r rest

/-- The one failure mode of the replacement callback: Python raises
`ZeroDivisionError` from `divmod(len(matched_text), len(placeholder))`
when the placeholder is empty. -/
inductive ScrubError where
  | zeroDivision
deriving DecidableEq

/-- Python string repetition `p * n`. -/
def pyRepeat (p : List Char) : Nat → List Char
  | 0 => []
  | n + 1 => p ++ pyRepeat p n

/-- The scan loop of `re.Pattern.sub` with replacement callback `repl`:
at each position, if the pattern matches, the committed match is replaced;
a zero-width match emits its replacement and then copies one character; if
the pattern does not match at this position the character is copied and the
scan advances.  `fuel` dominates the length of the remaining input. -/
def subFuel (r : Regex) (repl : List Char → Except ScrubError (List Char)) :
    Nat → List Char → Except ScrubError (List Char)
  | 0, s => .ok s
  | fuel + 1, s =>
    match firstLen r s with
    | some n =>
      if n = 0 then
        match repl [] with
        | .error e => .error e
        | .ok w =>
          match s with
          | [] => .ok w
          | x :: rest =>
            match subFuel r repl fuel rest with
            | .error e => .error e
            | .ok tail => .ok (w ++ x :: tail)
      else
        match repl (s.take n) with
        | .error e => .error e
        | .ok w =>
          match subFuel r repl fuel (s.drop n) with
          | .error e => .error e
          | .ok tail => .ok (w ++ tail)
    | none =>
      match s with
      | [] => .ok []
      | x :: rest =>
        match subFuel r repl fuel rest with
        | .error e => .error e
        | .ok tail => .ok (x :: tail)

/-- `re.Pattern.sub` over the whole input. -/
def pySub (r : Regex) (repl : List Char → Except ScrubError (List Char))
    (s : List Char) : Except ScrubError (List Char) :=
  subFuel r repl (s.length + 1) s

/-- The `_replacement` closure of `SanitizerRule.scrub` (src/main.py lines
44-56): without `maintain_length` the placeholder is returned verbatim; a
single-character placeholder is repeated to the matched length; otherwise
`divmod(len(matched_text), len(placeholder))` tiles the placeholder, which
raises `ZeroDivisionError` when the placeholder is empty. -/
def scrubReplacement (placeholder : List Char) (maintainLength : Bool)
    (matchedText : List Char) : Except ScrubError (List Char) :=
  if maintainLength = false then .ok placeholder
  else if placeholder.length = 1 then .ok (pyRepeat placeholder matchedText.length)
  else if placeholder.length = 0 then .error .zeroDivision
  else
    .ok (pyRepeat placeholder (matchedText.length / placeholder.length) ++
      placeholder.take (matchedText.length % placeholder.length))

/-- `SanitizerRule.scrub` (src/main.py lines 41-58): substitute every
non-overlapping match of the pattern in `value`. -/
def scrub (pattern : Regex) (value placeholder : List Char)
    (maintainLength : Bool) : Except ScrubError (List Char) :=
  pySub pattern (scrubReplacement placeholder maintainLength) value

/-- A compiled sanitization rule (src/main.py class SanitizerRule). -/
structure SanitizerRule where
  description : String
  pattern : Regex

/-- `LogSanitizer._sanitise_file` (src/main.py lines 166-177): thread the
content through every rule in rule-set order, each rule scrubbing the
output of the previous rule. -/
def sanitiseFile (placeholder : List Char) (maintainLength : Bool) :
    List SanitizerRule → List Char → Except ScrubError (List Char)
  | [], content => .ok content
  | rule :: rest, content =>
    match scrub rule.pattern content placeholder maintainLength with
    | .error e => .error e
    | .ok out => sanitiseFile placeholder maintainLength rest out

/-- Failures of `LogSanitizer._load_rules` (src/main.py lines 86-106): an
uncompilable line raises `ValueError` naming the line number and pattern
text; a rule file that yields no rules raises `ValueError` as well.  The
missing-file case (`FileNotFoundError`) is outside the loading of lines
and is not modelled here. -/
inductive LoadError where
  | invalidRule (lineNumber : Nat) (sourceText : String) (message : String)
  | emptyRuleSet
deriving DecidableEq

/-- Python `str.strip()`: surrounding whitespace removed, embedded over
the character list so that it evaluates inside the kernel. -/
def pyStrip (s : String) : String :=
  { data := ((s.data.dropWhile Char.isWhitespace).reverse.dropWhile
      Char.isWhitespace).reverse }

/-- A rules line is kept when, after stripping, it is neither empty nor a
`#` comment (src/main.py line 93): `not rule_text` is emptiness and
`rule_text.startswith("#")` is a leading `#` character. -/
def keptLine (t : String) : Bool :=
  !(t.data == [] || t.data.head? == some '#')

/-- The stripped rule lines that survive the comment/blank filter, in file
order. -/
def keptLines (lns : List String) : List String :=
  (lns.map pyStrip).filter keptLine

/-- The enumeration loop of `LogSanitizer._load_rules` (src/main.py lines
90-103): `idx` is the 1-based number of the first line of `lns`;
`compile` stands for `re.compile`, returning the compiled pattern or the
message of the raised `re.error`.  The first compilation failure aborts
the whole load. -/
def loadRulesAux (compile : String → Except String Regex) :
    Nat → List String → Except LoadError (List SanitizerRule)
  | _, [] => .ok []
  | idx, line :: rest =>
    if keptLine (pyStrip line) then
      match compile (pyStrip line) with
      | .error msg => .error (.invalidRule idx (pyStrip line) msg)
      | .ok pat =>
        match loadRulesAux compile (idx + 1) rest with
        | .error e => .error e
        | .ok rs => .ok ({ description := (pyStrip line), pattern := pat } :: rs)
    else loadRulesAux compile (idx + 1) rest

/-- `LogSanitizer._load_rules` over the lines of the rules file
(src/main.py lines 86-109): run the loop from line 1 and reject an empty
result. -/
def loadRules (compile : String → Except String Regex) (lns : List String) :
    Except LoadError (List SanitizerRule) :=
  match loadRulesAux compile 1 lns with
  | .error e => .error e
  | .ok [] => .error .emptyRuleSet
  | .ok rs => .ok rs

/-- The ignore source as seen by `LogSanitizer._load_ignore_patterns`
(src/main.py lines 112-124 and 79-83): `none` when no ignore file was
supplied, `some none` when the path does not exist, `some (some lns)` for
an existing file with lines `lns`. -/
def loadIgnorePatterns : Option (Option (List String)) → List String
  | none => []
  | some none => []
  | some (some lns) => keptLines lns

/-- `LogSanitizer._is_ignored` (src/main.py lines 139-149): `fnmatch`
stands for `fnmatch.fnmatch(candidate, pattern)`; a file is ignored when
some pattern matches its path relative to the source root or its bare
name. -/
def isIgnored (fnmatch : String → String → Bool) (patterns : List String)
    (relative name : String) : Bool :=
  if patterns.isEmpty then false
  else patterns.any (fun pat => fnmatch relative pat || fnmatch name pat)

/-- One enumerated source file as `LogSanitizer.sanitise` sees it:
`content` is `none` when `source_path.read_text` raises (unreadable or
vanished file). -/
structure SourceFile where
  path : String
  content : Option String

/-- The loop of `LogSanitizer.sanitise` (src/main.py lines 151-164) over
the non-ignored files in enumeration order.  There is no handler around
the body, so the first raised exception ends the loop: the result pairs
the writes performed before that point with the propagated error, `none`
when every file was processed. -/
def sanitiseRun (rules : List SanitizerRule) (placeholder : List Char)
    (maintainLength : Bool) :
    List SourceFile → List (String × List Char) × Option String
  | [] => ([], none)
  | f :: rest =>
    match f.content with
    | none => ([], some f.path)
    | some c =>
      match sanitiseFile placeholder maintainLength rules c.data with
      | .error _ => ([], some f.path)
      | .ok out =>
        ((f.path, out) :: (sanitiseRun rules placeholder maintainLength rest).1,
          (sanitiseRun rules placeholder maintainLength rest).2)

/-- `\d` as a character class (the model is over the ASCII digits the
test corpus uses). -/
def digit : Regex :=
  .cls Char.isDigit

/-- `[A-Z]` as a character class. -/
def upperAZ : Regex :=
  .cls (fun c => decide ('A' ≤ c) && decide (c ≤ 'Z'))

/-- `r+` desugared to `r r*`. -/
def rePlus (r : Regex) : Regex :=
  .seq r (.star r)

/-- The rule set of end-to-end scenario 3 and of the repository test
`test_load_rules_and_ignore`: `\d+` then `[A-Z]\x7b2,\x7d`. -/
def scenarioRules : List SanitizerRule :=
  [{ description := "d-plus", pattern := rePlus digit },
   { description := "upper-two-plus", pattern := .seq upperAZ (rePlus upperAZ) }]

/-- A rule set whose second rule manufactures text that the first rule
then matches on a later pass: `a` followed by any character other than
`b` (the regex a[^b]), and the literal `b`.  Neither pattern mentions the
placeholder character at all. -/
def boundaryRules : List SanitizerRule :=
  [{ description := "a-nonb",
     pattern := .seq (.char 'a') (.cls (fun c => !(c == 'b'))) },
   { description := "b", pattern := .char 'b' }]

theorem starLens_le (f : List Char → List Nat)
    (hf : ∀ t, ∀ m ∈ f t, m ≤ t.length) :
    ∀ fuel s, ∀ n ∈ starLens f fuel s, n ≤ s.length := by
  intro fuel
  induction fuel with
  | zero =>
    intro s n hn
    simp only [starLens, List.mem_singleton] at hn
    omega
  | succ fuel ih =>
    intro s n hn
    simp only [starLens, List.mem_append, List.mem_flatMap, List.mem_map,
      List.mem_filter, List.mem_singleton, decide_eq_true_eq] at hn
    rcases hn with ⟨a, ⟨ha, hapos⟩, m, hm, rfl⟩ | rfl
    · have h1 := hf s a ha
      have h2 := ih (s.drop a) m hm
      simp only [List.length_drop] at h2
      omega
    · omega

theorem matchLens_le (r : Regex) : ∀ s, ∀ n ∈ matchLens r s, n ≤ s.length := by
  induction r with
  | char c =>
    intro s n hn
    cases s with
    | nil => simp [matchLens] at hn
    | cons x t =>
      simp only [matchLens] at hn
      split at hn <;> simp_all
  | cls p =>
    intro s n hn
    cases s with
    | nil => simp [matchLens] at hn
    | cons x t =>
      simp only [matchLens] at hn
      split at hn <;> simp_all
  | seq r₁ r₂ ih₁ ih₂ =>
    intro s n hn
    simp only [matchLens, List.mem_flatMap, List.mem_map] at hn
    rcases hn with ⟨a, ha, m, hm, rfl⟩
    have h1 := ih₁ s a ha
    have h2 := ih₂ (s.drop a) m hm
    simp only [List.length_drop] at h2
    omega
  | alt r₁ r₂ ih₁ ih₂ =>
    intro s n hn
    simp only [matchLens, List.mem_append] at hn
    rcases hn with hn | hn
    · exact ih₁ s n hn
    · exact ih₂ s n hn
  | star r ih =>
    intro s n hn
    exact starLens_le (matchLens r) ih s.length s n hn

theorem matchesAt_false_iff (r : Regex) (s : List Char) :
    matchesAt r s = false ↔ matchLens r s = [] := by
  simp [matchesAt, List.isEmpty_iff]

theorem matchesAt_true_iff (r : Regex) (s : List Char) :
    matchesAt r s = true ↔ matchLens r s ≠ [] := by
  simp [matchesAt, List.isEmpty_iff]

theorem firstLen_none (r : Regex) (s : List Char)
    (h : matchesAt r s = false) : firstLen r s = none := by
  rw [matchesAt_false_iff] at h
  simp [firstLen, h]

theorem firstLen_le (r : Regex) (s : List Char) (n : Nat)
    (h : firstLen r s = some n) : n ≤ s.length := by
  apply matchLens_le r s
  simp only [firstLen] at h
  exact List.mem_of_mem_head? h

theorem subFuel_no_match (r : Regex)
    (repl : List Char → Except ScrubError (List Char)) :
    ∀ fuel s, matchesIn r s = false → subFuel r repl fuel s = .ok s := by
  intro fuel
  induction fuel with
  | zero => intro s _; rfl
  | succ fuel ih =>
    intro s h
    cases s with
    | nil =>
      have hat : matchesAt r [] = false := h
      simp only [subFuel, firstLen_none r [] hat]
    | cons x rest =>
      simp only [matchesIn, Bool.or_eq_false_iff] at h
      obtain ⟨hat, hin⟩ := h
      simp only [subFuel, firstLen_none r (x :: rest) hat, ih rest hin]

theorem subFuel_total (r : Regex)
    (repl : List Char → Except ScrubError (List Char))
    (hrepl : ∀ m, ∃ w, repl m = .ok w) :
    ∀ fuel s, ∃ out, subFuel r repl fuel s = .ok out := by
  intro fuel
  induction fuel with
  | zero => intro s; exact ⟨s, rfl⟩
  | succ fuel ih =>
    intro s
    cases hfl : firstLen r s with
    | some n =>
      by_cases hn : n = 0
      · subst hn
        obtain ⟨w, hw⟩ := hrepl []
        cases s with
        | nil => exact ⟨w, by simp [subFuel, hfl, hw]⟩
        | cons x rest =>
          obtain ⟨tail, htail⟩ := ih rest
          exact ⟨w ++ x :: tail, by simp [subFuel, hfl, hw, htail]⟩
      · obtain ⟨w, hw⟩ := hrepl (s.take n)
        obtain ⟨tail, htail⟩ := ih (s.drop n)
        exact ⟨w ++ tail, by simp [subFuel, hfl, hn, hw, htail]⟩
    | none =>
      cases s with
      | nil => exact ⟨[], by simp [subFuel, hfl]⟩
      | cons x rest =>
        obtain ⟨tail, htail⟩ := ih rest
        exact ⟨x :: tail, by simp [subFuel, hfl, htail]⟩

theorem subFuel_length (r : Regex)
    (repl : List Char → Except ScrubError (List Char))
    (hlen : ∀ m w, repl m = .ok w → w.length = m.length)
    (hrepl : ∀ m, ∃ w, repl m = .ok w) :
    ∀ fuel s, s.length < fuel →
      ∃ out, subFuel r repl fuel s = .ok out ∧ out.length = s.length := by
  intro fuel
  induction fuel with
  | zero => intro s hs; omega
  | succ fuel ih =>
    intro s hs
    cases hfl : firstLen r s with
    | some n =>
      by_cases hn : n = 0
      · subst hn
        obtain ⟨w, hw⟩ := hrepl []
        have hw0 : w.length = 0 := hlen [] w hw
        cases s with
        | nil => exact ⟨w, by simp [subFuel, hfl, hw], by simp [hw0]⟩
        | cons x rest =>
          obtain ⟨tail, htail, htlen⟩ := ih rest (by simp at hs ⊢; omega)
          refine ⟨w ++ x :: tail, by simp [subFuel, hfl, hw, htail], ?_⟩
          simp [hw0, htlen]
      · obtain ⟨w, hw⟩ := hrepl (s.take n)
        have hnle : n ≤ s.length := firstLen_le r s n hfl
        have hwlen : w.length = n := by
          have := hlen (s.take n) w hw
          simpa [List.length_take, Nat.min_eq_left hnle] using this
        obtain ⟨tail, htail, htlen⟩ := ih (s.drop n)
          (by simp [List.length_drop]; omega)
        refine ⟨w ++ tail, by simp [subFuel, hfl, hn, hw, htail], ?_⟩
        simp only [List.length_append, List.length_drop] at *
        omega
    | none =>
      cases s with
      | nil => exact ⟨[], by simp [subFuel, hfl], rfl⟩
      | cons x rest =>
        obtain ⟨tail, htail, htlen⟩ := ih rest (by simp at hs ⊢; omega)
        exact ⟨x :: tail, by simp [subFuel, hfl, htail], by simp [htlen]⟩

theorem subFuel_error (r : Regex)
    (repl : List Char → Except ScrubError (List Char))
    (herr : ∀ m, repl m = .error .zeroDivision) :
    ∀ fuel s, s.length < fuel → matchesIn r s = true →
      subFuel r repl fuel s = .error .zeroDivision := by
  intro fuel
  induction fuel with
  | zero => intro s hs _; omega
  | succ fuel ih =>
    intro s hs h
    cases hfl : firstLen r s with
    | some n =>
      by_cases hn : n = 0
      · subst hn; simp [subFuel, hfl, herr []]
      · simp [subFuel, hfl, hn, herr (s.take n)]
    | none =>
      cases s with
      | nil =>
        exfalso
        have hat : matchesAt r [] = true := h
        rw [matchesAt_true_iff] at hat
        simp only [firstLen] at hfl
        exact hat (List.head?_eq_none_iff.mp hfl)
      | cons x rest =>
        simp only [matchesIn, Bool.or_eq_true] at h
        rcases h with hat | hin
        · exfalso
          rw [matchesAt_true_iff] at hat
          simp only [firstLen] at hfl
          exact hat (List.head?_eq_none_iff.mp hfl)
        · have hrest : rest.length < fuel := by simp at hs; omega
          simp [subFuel, hfl, ih rest hrest hin]

theorem pyRepeat_length (p : List Char) :
    ∀ n, (pyRepeat p n).length = n * p.length := by
  intro n
  induction n with
  | zero => simp [pyRepeat]
  | succ n ih => simp [pyRepeat, ih, Nat.succ_mul, Nat.add_comm]

theorem pyRepeat_eq_join (p : List Char) :
    ∀ n, pyRepeat p n = (List.replicate n p).flatten := by
  intro n
  induction n with
  | zero => rfl
  | succ n ih => simp [pyRepeat, ih, List.replicate_succ]

theorem pyRepeat_single (c : Char) :
    ∀ n, pyRepeat [c] n = List.replicate n c := by
  intro n
  induction n with
  | zero => rfl
  | succ n ih => simp [pyRepeat, ih, List.replicate_succ]

theorem scrubReplacement_ok (p : List Char) (hp : p ≠ []) (m : Bool)
    (mt : List Char) : ∃ w, scrubReplacement p m mt = .ok w := by
  have hplen : p.length ≠ 0 := by simpa using hp
  unfold scrubReplacement
  cases m with
  | false => exact ⟨p, rfl⟩
  | true =>
    by_cases h1 : p.length = 1
    · exact ⟨pyRepeat p mt.length, by simp [h1]⟩
    · refine ⟨pyRepeat p (mt.length / p.length) ++
        p.take (mt.length % p.length), ?_⟩
      simp [h1, hplen]

theorem scrubReplacement_length (p : List Char) (hp : p ≠ [])
    (mt w : List Char) (h : scrubReplacement p true mt = .ok w) :
    w.length = mt.length := by
  have hplen : p.length ≠ 0 := by simpa using hp
  unfold scrubReplacement at h
  by_cases h1 : p.length = 1
  · simp only [Bool.true_eq_false, if_false, h1, if_true] at h
    cases h
    simp [pyRepeat_length, h1]
  · simp only [Bool.true_eq_false, if_false, h1, hplen, if_false] at h
    cases h
    have hmod : mt.length % p.length < p.length := Nat.mod_lt _ (Nat.pos_of_ne_zero hplen)
    simp only [List.length_append, pyRepeat_length, List.length_take]
    rw [Nat.min_eq_left (Nat.le_of_lt hmod), Nat.mul_comm]
    exact Nat.div_add_mod mt.length p.length

theorem scrubReplacement_empty (mt : List Char) :
    scrubReplacement [] true mt = .error .zeroDivision := by
  simp [scrubReplacement]

theorem matchesIn_suffix (r : Regex) :
    ∀ s, matchesIn r s = true → ∃ t, t <:+ s ∧ matchesAt r t = true := by
  intro s
  induction s with
  | nil => intro h; exact ⟨[], List.suffix_refl [], h⟩
  | cons x rest ih =>
    intro h
    simp only [matchesIn, Bool.or_eq_true] at h
    rcases h with h | h
    · exact ⟨x :: rest, List.suffix_refl _, h⟩
    · obtain ⟨t, ht, hm⟩ := ih h
      exact ⟨t, ht.trans (List.suffix_cons x rest), hm⟩

theorem matchesAt_char_head (c : Char) (s : List Char)
    (h : matchesAt (.char c) s = true) : ∃ t, s = c :: t := by
  rw [matchesAt_true_iff] at h
  cases s with
  | nil => simp [matchLens] at h
  | cons x t =>
    simp only [matchLens] at h
    split at h
    · rename_i hx; exact ⟨t, by rw [hx]⟩
    · simp at h

theorem matchesAt_seq_char_head (c : Char) (r : Regex) (s : List Char)
    (h : matchesAt (.seq (.char c) r) s = true) : ∃ t, s = c :: t := by
  rw [matchesAt_true_iff] at h
  cases s with
  | nil =>
    simp only [matchLens, ne_eq] at h
    simp at h
  | cons x t =>
    simp only [matchLens, ne_eq] at h
    split at h
    · rename_i hx; exact ⟨t, by rw [hx]⟩
    · simp at h

theorem scrub_no_match (pattern : Regex) (value placeholder : List Char)
    (m : Bool) (h : matchesIn pattern value = false) :
    scrub pattern value placeholder m = .ok value :=
  subFuel_no_match pattern _ (value.length + 1) value h

theorem scrub_total (pattern : Regex) (value placeholder : List Char)
    (m : Bool) (hp : placeholder ≠ []) :
    ∃ out, scrub pattern value placeholder m = .ok out :=
  subFuel_total pattern _ (fun mt => scrubReplacement_ok placeholder hp m mt)
    (value.length + 1) value

theorem scrub_length (pattern : Regex) (value placeholder : List Char)
    (hp : placeholder ≠ []) :
    ∃ out, scrub pattern value placeholder true = .ok out ∧
      out.length = value.length :=
  subFuel_length pattern _
    (fun mt w => scrubReplacement_length placeholder hp mt w)
    (fun mt => scrubReplacement_ok placeholder hp true mt)
    (value.length + 1) value (Nat.lt_succ_self _)

theorem sanitiseFile_no_match (placeholder : List Char) (m : Bool) :
    ∀ rules content,
      (∀ rule ∈ rules, matchesIn rule.pattern content = false) →
      sanitiseFile placeholder m rules content = .ok content := by
  intro rules
  induction rules with
  | nil => intro content _; rfl
  | cons rule rest ih =>
    intro content h
    have h1 : matchesIn rule.pattern content = false :=
      h rule (List.mem_cons_self rule rest)
    have h2 := ih content (fun r hr => h r (List.mem_cons_of_mem rule hr))
    simp [sanitiseFile, scrub_no_match rule.pattern content placeholder m h1, h2]

theorem keptLines_cons (line : String) (rest : List String) :
    keptLines (line :: rest) =
      if keptLine (pyStrip line) then (pyStrip line) :: keptLines rest
      else keptLines rest := by
  simp [keptLines, List.filter_cons]

theorem loadRulesAux_of_kept_nil (compile : String → Except String Regex) :
    ∀ lns idx, keptLines lns = [] →
      loadRulesAux compile idx lns = .ok [] := by
  intro lns
  induction lns with
  | nil => intro idx _; rfl
  | cons line rest ih =>
    intro idx h
    rw [keptLines_cons] at h
    by_cases hk : keptLine (pyStrip line)
    · simp [hk] at h
    · simp only [hk, if_false] at h
      simp [loadRulesAux, hk, ih (idx + 1) h]

theorem loadRulesAux_ok (compile : String → Except String Regex) :
    ∀ lns idx, (∀ t ∈ keptLines lns, ∃ pat, compile t = .ok pat) →
      ∃ rs, loadRulesAux compile idx lns = .ok rs ∧
        rs.map SanitizerRule.description = keptLines lns := by
  intro lns
  induction lns with
  | nil => intro idx _; exact ⟨[], rfl, rfl⟩
  | cons line rest ih =>
    intro idx h
    rw [keptLines_cons]
    by_cases hk : keptLine (pyStrip line)
    · rw [keptLines_cons] at h
      simp only [hk, if_true] at h ⊢
      obtain ⟨pat, hpat⟩ := h (pyStrip line) (List.mem_cons_self _ _)
      obtain ⟨rs, hrs, hdesc⟩ :=
        ih (idx + 1) (fun t ht => h t (List.mem_cons_of_mem _ ht))
      refine ⟨{ description := (pyStrip line), pattern := pat } :: rs, ?_, ?_⟩
      · simp [loadRulesAux, hk, hpat, hrs]
      · simp [hdesc]
    · rw [keptLines_cons] at h
      simp only [hk, if_false] at h ⊢
      obtain ⟨rs, hrs, hdesc⟩ := ih (idx + 1) h
      exact ⟨rs, by simp [loadRulesAux, hk, hrs], hdesc⟩

theorem loadRulesAux_error (compile : String → Except String Regex) :
    ∀ lns idx t, t ∈ keptLines lns → (∃ msg, compile t = .error msg) →
      ∃ i tt msg, loadRulesAux compile idx lns = .error (.invalidRule i tt msg) ∧
        idx ≤ i ∧ ∃ l, lns[i - idx]? = some l ∧ pyStrip l = tt ∧
          compile tt = .error msg := by
  intro lns
  induction lns with
  | nil => intro idx t ht _; simp [keptLines] at ht
  | cons line rest ih =>
    intro idx t ht hbad
    rw [keptLines_cons] at ht
    by_cases hk : keptLine (pyStrip line)
    · simp only [hk, if_true, List.mem_cons] at ht
      cases hcomp : compile (pyStrip line) with
      | error msg =>
        refine ⟨idx, (pyStrip line), msg, ?_, Nat.le_refl idx, line, ?_, rfl, hcomp⟩
        · simp [loadRulesAux, hk, hcomp]
        · simp
      | ok pat =>
        have htr : t ∈ keptLines rest := by
          rcases ht with rfl | ht
          · obtain ⟨msg, hmsg⟩ := hbad
            rw [hcomp] at hmsg
            cases hmsg
          · exact ht
        obtain ⟨i, tt, msg, herr, hge, l, hget, htrim, hcm⟩ :=
          ih (idx + 1) t htr hbad
        refine ⟨i, tt, msg, ?_, by omega, l, ?_, htrim, hcm⟩
        · simp [loadRulesAux, hk, hcomp, herr]
        · have : i - idx = (i - (idx + 1)) + 1 := by omega
          rw [this]
          simpa using hget
    · simp only [hk, if_false] at ht
      obtain ⟨i, tt, msg, herr, hge, l, hget, htrim, hcm⟩ :=
        ih (idx + 1) t ht hbad
      refine ⟨i, tt, msg, ?_, by omega, l, ?_, htrim, hcm⟩
      · simp [loadRulesAux, hk, herr]
      · have : i - idx = (i - (idx + 1)) + 1 := by omega
        rw [this]
        simpa using hget

theorem sanitiseRun_aborts (rules : List SanitizerRule)
    (placeholder : List Char) (m : Bool) :
    ∀ pre (f : SourceFile) post,
      (∀ g ∈ pre, ∃ c, g.content = some c ∧
        ∃ out, sanitiseFile placeholder m rules c.data = .ok out) →
      f.content = none →
      sanitiseRun rules placeholder m (pre ++ f :: post) =
        ((sanitiseRun rules placeholder m pre).1, some f.path) := by
  intro pre
  induction pre with
  | nil =>
    intro f post _ hf
    simp [sanitiseRun, hf]
  | cons g rest ih =>
    intro f post h hf
    obtain ⟨c, hc, out, hout⟩ := h g (List.mem_cons_self g rest)
    have hrec := ih f post (fun g' hg' => h g' (List.mem_cons_of_mem g hg')) hf
    simp [sanitiseRun, hc, hout, hrec]

/-- C2: for every match and every placeholder of character length greater
than one, with maintain_length the replacement for a match of length n is
the placeholder repeated q times followed by the first r characters of the
placeholder, with q and r the quotient and remainder of n by the
placeholder length; when n is below the placeholder length the replacement
is the placeholder prefix of length n. -/
theorem claim2_tiling_replacement (placeholder matchedText : List Char)
    (hp : 1 < placeholder.length) :
    scrubReplacement placeholder true matchedText =
      .ok ((List.replicate (matchedText.length / placeholder.length)
            placeholder).flatten ++
          placeholder.take (matchedText.length % placeholder.length)) ∧
    (matchedText.length < placeholder.length →
      scrubReplacement placeholder true matchedText =
        .ok (placeholder.take matchedText.length)) := by
  have h1 : placeholder.length ≠ 1 := by omega
  have h0 : placeholder.length ≠ 0 := by omega
  constructor
  · simp [scrubReplacement, h1, h0, pyRepeat_eq_join]
  · intro hlt
    simp [scrubReplacement, h1, h0, Nat.div_eq_of_lt hlt, Nat.mod_eq_of_lt hlt,
      pyRepeat_eq_join]

theorem claim2_tiling_replacement_witness :
    1 < ("XY".data).length ∧
      scrubReplacement "XY".data true "123".data =
        .ok ((List.replicate ("123".data.length / "XY".data.length)
              "XY".data).flatten ++
            "XY".data.take ("123".data.length % "XY".data.length)) :=
  ⟨by decide, (claim2_tiling_replacement "XY".data "123".data (by decide)).1⟩

/-- C7: with maintain_length and a single-character placeholder, the
replacement for a match is the placeholder character repeated exactly the
number of characters of the matched text, so the replaced span is composed
entirely of the placeholder character and keeps the matched character
length.  The model works over lists of characters, so these counts are
character counts, not byte counts. -/
theorem claim7_single_char_replacement (c : Char) (matchedText : List Char) :
    scrubReplacement [c] true matchedText =
      .ok (List.replicate matchedText.length c) ∧
    (List.replicate matchedText.length c).length = matchedText.length ∧
    ∀ x ∈ List.replicate matchedText.length c, x = c := by
  refine ⟨?_, List.length_replicate _ _, fun x hx => List.eq_of_mem_replicate hx⟩
  simp [scrubReplacement, pyRepeat_single]

/-- C8: scrub is total for a non-empty placeholder — it always returns a
string — and returns the input unchanged when the pattern has no match in
it. -/
theorem claim8_scrub_total (pattern : Regex) (value placeholder : List Char)
    (maintainLength : Bool) (hp : placeholder ≠ []) :
    (∃ out, scrub pattern value placeholder maintainLength = .ok out) ∧
    (matchesIn pattern value = false →
      scrub pattern value placeholder maintainLength = .ok value) :=
  ⟨scrub_total pattern value placeholder maintainLength hp,
    fun h => scrub_no_match pattern value placeholder maintainLength h⟩

theorem claim8_scrub_total_witness :
    ("*".data ≠ []) ∧
    ((∃ out, scrub (.char 'z') "ab".data "*".data true = .ok out) ∧
      (matchesIn (.char 'z') "ab".data = false →
        scrub (.char 'z') "ab".data "*".data true = .ok "ab".data)) :=
  ⟨by decide, claim8_scrub_total (.char 'z') "ab".data "*".data true (by decide)⟩

/-- C9: with maintain_length and any non-empty placeholder, scrub
preserves the character length of the whole input exactly, because every
replacement has exactly the matched length. -/
theorem claim9_length_preserved (pattern : Regex)
    (value placeholder : List Char) (hp : placeholder ≠ []) :
    ∃ out, scrub pattern value placeholder true = .ok out ∧
      out.length = value.length :=
  scrub_length pattern value placeholder hp

theorem claim9_length_preserved_witness :
    ("XY".data ≠ []) ∧
    ∃ out, scrub (rePlus digit) "a12345b".data "XY".data true = .ok out ∧
      out.length = "a12345b".data.length :=
  ⟨by decide,
    claim9_length_preserved (rePlus digit) "a12345b".data "XY".data (by decide)⟩

/-- C10: with maintain_length, the empty placeholder, and at least one
match in the input, scrub fails with the division-by-zero error raised by
the tiling divmod instead of returning a string. -/
theorem claim10_empty_placeholder_zero_division (pattern : Regex)
    (value : List Char) (h : matchesIn pattern value = true) :
    scrub pattern value [] true = .error .zeroDivision :=
  subFuel_error pattern _ (fun mt => scrubReplacement_empty mt)
    (value.length + 1) value (Nat.lt_succ_self _) h

theorem claim10_empty_placeholder_zero_division_witness :
    matchesIn (.char 'b') "ab".data = true ∧
      scrub (.char 'b') "ab".data [] true = .error .zeroDivision :=
  ⟨by decide,
    claim10_empty_placeholder_zero_division (.char 'b') "ab".data (by decide)⟩

/-- C6: the file pipeline applies the rules strictly in rule-set order,
each rule scrubbing the output of the previous rule rather than the
original text, and on the end-to-end scenario with rules d-plus and
upper-two-plus, input ID 12345 NAME BOB, placeholder X and
maintain_length, the result is XX XXXXX XXXX XXX. -/
theorem claim6_sequential_rules :
    (∀ (placeholder : List Char) (m : Bool) (rule : SanitizerRule)
        (rest : List SanitizerRule) (content mid : List Char),
      scrub rule.pattern content placeholder m = .ok mid →
      sanitiseFile placeholder m (rule :: rest) content =
        sanitiseFile placeholder m rest mid) ∧
    sanitiseFile ['X'] true scenarioRules "ID 12345 NAME BOB".data =
      .ok "XX XXXXX XXXX XXX".data := by
  constructor
  · intro placeholder m rule rest content mid h
    simp [sanitiseFile, h]
  · rfl

theorem claim6_sequential_rules_witness :
    scrub (rePlus digit) "ID 12345 NAME BOB".data ['X'] true =
      .ok "ID XXXXX NAME BOB".data ∧
    sanitiseFile ['X'] true scenarioRules "ID 12345 NAME BOB".data =
      sanitiseFile ['X'] true [scenarioRules.get ⟨1, by decide⟩]
        "ID XXXXX NAME BOB".data :=
  ⟨rfl, claim6_sequential_rules.1 ['X'] true
    { description := "d-plus", pattern := rePlus digit }
    [scenarioRules.get ⟨1, by decide⟩] "ID 12345 NAME BOB".data
    "ID XXXXX NAME BOB".data rfl⟩

/-- C3 counterexample: the claim fails as stated.  With the rule set
boundaryRules — the pattern a[^b], then the pattern b — and placeholder
star, no rule matches any text made only of the placeholder character
(neither pattern even mentions it), yet sanitising ab yields a-star on
the first full application and star-star on the second, so re-running
the sanitizer on its own output changes it again: a rule may match a
span mixing placeholder characters with untouched text. -/
theorem claim3_counterexample :
    (∀ rule ∈ boundaryRules, ∀ s : List Char,
      (∀ c ∈ s, c = '*') → matchesIn rule.pattern s = false) ∧
    sanitiseFile ['*'] true boundaryRules "ab".data = .ok "a*".data ∧
    sanitiseFile ['*'] true boundaryRules "a*".data = .ok "**".data ∧
    "**".data ≠ "a*".data := by
  refine ⟨?_, rfl, rfl, by decide⟩
  intro rule hrule s hs
  by_contra h
  have h' : matchesIn rule.pattern s = true := by
    cases hm : matchesIn rule.pattern s
    · exact absurd hm h
    · rfl
  obtain ⟨t, hsuf, hat⟩ := matchesIn_suffix rule.pattern s h'
  simp only [boundaryRules, List.mem_cons, List.mem_singleton] at hrule
  rcases hrule with rfl | rfl | hrule
  · obtain ⟨t', rfl⟩ :=
      matchesAt_seq_char_head 'a' (.cls (fun c => !(c == 'b'))) t hat
    have : 'a' ∈ s := hsuf.subset (List.mem_cons_self 'a' t')
    have := hs 'a' this
    cases this
  · obtain ⟨t', rfl⟩ := matchesAt_char_head 'b' t hat
    have : 'b' ∈ s := hsuf.subset (List.mem_cons_self 'b' t')
    have := hs 'b' this
    cases this
  · cases hrule

/-- C3 amended: re-running the sanitizer on its own output with the same
rule set produces no further changes provided no rule matches anywhere in
that output; disjointness of the placeholder from the rule patterns alone
does not suffice. -/
theorem claim3_idempotence_amended (rules : List SanitizerRule)
    (placeholder : List Char) (m : Bool) (text out : List Char)
    (_hprev : sanitiseFile placeholder m rules text = .ok out)
    (hnm : ∀ rule ∈ rules, matchesIn rule.pattern out = false) :
    sanitiseFile placeholder m rules out = .ok out :=
  sanitiseFile_no_match placeholder m rules out hnm

theorem claim3_idempotence_amended_witness :
    sanitiseFile ['*'] true scenarioRules "Order 12345 shipped".data =
      .ok "Order ***** shipped".data ∧
    (∀ rule ∈ scenarioRules,
      matchesIn rule.pattern "Order ***** shipped".data = false) ∧
    sanitiseFile ['*'] true scenarioRules "Order ***** shipped".data =
      .ok "Order ***** shipped".data := by
  have h1 : sanitiseFile ['*'] true scenarioRules "Order 12345 shipped".data =
      .ok "Order ***** shipped".data := rfl
  have h2 : ∀ rule ∈ scenarioRules,
      matchesIn rule.pattern "Order ***** shipped".data = false := by decide
  exact ⟨h1, h2, claim3_idempotence_amended scenarioRules ['*'] true
    "Order 12345 shipped".data "Order ***** shipped".data h1 h2⟩

/-- The file list used to settle C1: the first file is unreadable, the
second is readable. -/
def demoFiles : List SourceFile :=
  [{ path := "secrets.log", content := none },
   { path := "app.log", content := some "b7" }]

/-- C1 counterexample: the claim fails as stated.  With the scenario rule
set, an unreadable first file and a readable second file, the run aborts
at the first file: the error propagates out of sanitise and the second
file is never processed, so the failure is not confined to the failing
file. -/
theorem claim1_counterexample :
    sanitiseRun scenarioRules ['*'] true demoFiles = ([], some "secrets.log") ∧
    ¬∃ out, ("app.log", out) ∈ (sanitiseRun scenarioRules ['*'] true demoFiles).1 := by
  have h : sanitiseRun scenarioRules ['*'] true demoFiles =
      ([], some "secrets.log") := rfl
  refine ⟨h, ?_⟩
  rw [h]
  simp

/-- C1 amended: when processing one file fails, the failure is not
confined to that file: the files before it in enumeration order are
written, the error propagates out of the run, and the files after it are
not attempted at all. -/
theorem claim1_failure_aborts_run (rules : List SanitizerRule)
    (placeholder : List Char) (m : Bool) (pre post : List SourceFile)
    (f : SourceFile)
    (hpre : ∀ g ∈ pre, ∃ c, g.content = some c ∧
      ∃ out, sanitiseFile placeholder m rules c.data = .ok out)
    (hf : f.content = none) :
    sanitiseRun rules placeholder m (pre ++ f :: post) =
      ((sanitiseRun rules placeholder m pre).1, some f.path) :=
  sanitiseRun_aborts rules placeholder m pre f post hpre hf

theorem claim1_failure_aborts_run_witness :
    ((∀ g ∈ ([{ path := "a.log", content := some "b7" }] : List SourceFile),
        ∃ c, g.content = some c ∧
          ∃ out, sanitiseFile ['*'] true scenarioRules c.data = .ok out) ∧
      ({ path := "bad.log", content := none } : SourceFile).content = none) ∧
    sanitiseRun scenarioRules ['*'] true
        ([{ path := "a.log", content := some "b7" }] ++
          ({ path := "bad.log", content := none } : SourceFile) ::
            [{ path := "c.log", content := some "x" }]) =
      ((sanitiseRun scenarioRules ['*'] true
          [{ path := "a.log", content := some "b7" }]).1, some "bad.log") := by
  have hpre : ∀ g ∈ ([{ path := "a.log", content := some "b7" }] :
      List SourceFile), ∃ c, g.content = some c ∧
        ∃ out, sanitiseFile ['*'] true scenarioRules c.data = .ok out := by
    intro g hg
    rw [List.mem_singleton] at hg
    subst hg
    exact ⟨"b7", rfl, "b*".data, rfl⟩
  exact ⟨⟨hpre, rfl⟩, claim1_failure_aborts_run scenarioRules ['*'] true
    [{ path := "a.log", content := some "b7" }]
    [{ path := "c.log", content := some "x" }]
    { path := "bad.log", content := none } hpre rfl⟩

/-- C4: loading a rules source skips lines that are empty or start with a
`#` after stripping; if any remaining line fails to compile the whole load
fails with an error naming the line number of a genuinely failing line and
its stripped text, and no rule set is returned; if zero rules remain the
load fails with the empty-rule-set error; otherwise the rules come back in
file order, one per kept line. -/
theorem claim4_load_rules (compile : String → Except String Regex)
    (lns : List String) :
    (keptLines lns = [] → loadRules compile lns = .error .emptyRuleSet) ∧
    ((∀ t ∈ keptLines lns, ∃ pat, compile t = .ok pat) → keptLines lns ≠ [] →
      ∃ rs, loadRules compile lns = .ok rs ∧
        rs.map SanitizerRule.description = keptLines lns) ∧
    (∀ t ∈ keptLines lns, (∃ msg, compile t = .error msg) →
      ∃ i tt msg, loadRules compile lns = .error (.invalidRule i tt msg) ∧
        1 ≤ i ∧ ∃ l, lns[i - 1]? = some l ∧ pyStrip l = tt ∧
          compile tt = .error msg) := by
  refine ⟨?_, ?_, ?_⟩
  · intro h
    simp [loadRules, loadRulesAux_of_kept_nil compile lns 1 h]
  · intro hall hne
    obtain ⟨rs, hrs, hdesc⟩ := loadRulesAux_ok compile lns 1 hall
    cases rs with
    | nil => exact absurd hdesc.symm (by simpa using hne)
    | cons r rs' => exact ⟨r :: rs', by simp [loadRules, hrs], hdesc⟩
  · intro t ht hbad
    obtain ⟨i, tt, msg, herr, hge, l, hget, hstrip, hcm⟩ :=
      loadRulesAux_error compile lns 1 t ht hbad
    exact ⟨i, tt, msg, by simp [loadRules, herr], hge, l, hget, hstrip, hcm⟩

/-- A stand-in for `re.compile` used to exercise the loader: only the
pattern text `b` compiles. -/
def compileStub : String → Except String Regex :=
  fun t => if t == "b" then .ok (.char 'b') else .error "bad pattern"

theorem claim4_load_rules_witness :
    ((∀ t ∈ keptLines ["# note", "", "b"], ∃ pat, compileStub t = .ok pat) ∧
      keptLines ["# note", "", "b"] ≠ []) ∧
    ∃ rs, loadRules compileStub ["# note", "", "b"] = .ok rs ∧
      rs.map SanitizerRule.description = keptLines ["# note", "", "b"] := by
  have hk : keptLines ["# note", "", "b"] = ["b"] := by decide
  have h1 : ∀ t ∈ keptLines ["# note", "", "b"],
      ∃ pat, compileStub t = .ok pat := by
    rw [hk]
    intro t ht
    rw [List.mem_singleton] at ht
    subst ht
    exact ⟨.char 'b', rfl⟩
  have h2 : keptLines ["# note", "", "b"] ≠ [] := by rw [hk]; simp
  exact ⟨⟨h1, h2⟩, (claim4_load_rules compileStub ["# note", "", "b"]).2.1 h1 h2⟩

/-- C5: a file is ignored exactly when at least one ignore pattern
glob-matches its path relative to the source root or its bare name, and
when no ignore source is supplied or it does not exist, no file is
ignored. -/
theorem claim5_ignore_matching (fnmatch : String → String → Bool)
    (patterns : List String) (relative name : String) :
    (isIgnored fnmatch patterns relative name = true ↔
      ∃ pat ∈ patterns,
        fnmatch relative pat = true ∨ fnmatch name pat = true) ∧
    (∀ src : Option (Option (List String)), src = none ∨ src = some none →
      isIgnored fnmatch (loadIgnorePatterns src) relative name = false) := by
  constructor
  · by_cases hemp : patterns.isEmpty = true
    · rw [List.isEmpty_iff] at hemp
      subst hemp
      simp [isIgnored]
    · simp [isIgnored, hemp, List.any_eq_true, Bool.or_eq_true]
  · intro src hsrc
    rcases hsrc with rfl | rfl <;> simp [loadIgnorePatterns, isIgnored]

theorem claim5_ignore_matching_witness :
    ((none : Option (Option (List String))) = none ∨
      (none : Option (Option (List String))) = some none) ∧
    isIgnored (fun a b => a == b) (loadIgnorePatterns none)
      "sub/log.txt" "log.txt" = false :=
  ⟨Or.inl rfl,
    (claim5_ignore_matching (fun a b => a == b) (loadIgnorePatterns none)
      "sub/log.txt" "log.txt").2 none (Or.inl rfl)⟩

end LogAnon
